import Mathlib

/-!
Verification of the content-graph construction and incremental rebuild engine
of a static site generator, shallowly embedded from `src/site.rs`.

Paths are modelled as lists of components (mirroring `PathBuf`), the
`HashMap` collections as association lists with single-binding-per-key
update semantics, and the external collaborators (front-matter parser,
markdown renderer, template engine, output writer) as abstract data or as
an action log, as the specification directs.  Functions whose source file
is not part of the repository snapshot (`page.rs`, `section.rs`,
`config.rs`) are modelled from the specification and marked as such in
their doc comments.
-/

namespace Gutenberg

/-- A filesystem path, as its list of components (the shape `PathBuf` exposes
through `components()`, `parent()`, `file_name()` and `join`). -/
abbrev Path := List String

/-- Association-list map standing in for `HashMap`: at most one binding per
key is observable, `mapInsert` replaces the binding in place. -/
abbrev Smap (K V : Type) := List (K × V)

/-- First-match lookup, the observable semantics of `HashMap::get`. -/
def mapLookup {K V : Type} [DecidableEq K] : Smap K V → K → Option V
  | [], _ => none
  | (k', v) :: rest, k => if k' = k then some v else mapLookup rest k

/-- Insert-or-replace, the semantics of `HashMap::insert`. -/
def mapInsert {K V : Type} [DecidableEq K] : Smap K V → K → V → Smap K V
  | [], k, v => [(k, v)]
  | (k', v') :: rest, k, v =>
      if k' = k then (k, v) :: rest else (k', v') :: mapInsert rest k v

/-- Key removal, the semantics of `HashMap::remove`. -/
def mapRemove {K V : Type} [DecidableEq K] : Smap K V → K → Smap K V
  | [], _ => []
  | (k', v') :: rest, k =>
      if k' = k then mapRemove rest k else (k', v') :: mapRemove rest k

/-- The stored values, the semantics of `HashMap::values` (iteration order of
the backing list stands in for the hash map's arbitrary order). -/
def mapValues {K V : Type} (m : Smap K V) : List V := m.map Prod.snd

/-- The stored keys. -/
def mapKeys {K V : Type} (m : Smap K V) : List K := m.map Prod.fst

/-- Sort modes of a section (`front_matter::SortBy`). -/
inductive SortBy where
  | none
  | date
  | order
  | weight
  deriving DecidableEq, Repr

/-- Modelled from the spec: the page front-matter record of `page.rs`
(§3 Page metadata: title, optional date, optional order/weight keys,
optional tag set, optional category, template override, draft flag).
Dates are abstracted to naturals, which only need to be comparable. -/
structure PageMeta where
  title : Option String
  date : Option Nat
  order : Option Int
  weight : Option Int
  tags : Option (List String)
  category : Option String
  template : Option String
  draft : Bool
  deriving DecidableEq, Repr

/-- Modelled from the spec: the section front-matter record of
`front_matter.rs` (§3 Section metadata: sort mode, pagination settings,
render flag). -/
structure SectionMeta where
  sort_by : SortBy
  paginate_by : Option Nat
  paginate_path : Option String
  render : Bool
  deriving DecidableEq, Repr

/-- Modelled from the spec: `should_render` on section front matter. -/
def SectionMeta.should_render (m : SectionMeta) : Bool := m.render

/-- Modelled from the spec: `is_paginated` on section front matter. -/
def SectionMeta.is_paginated (m : SectionMeta) : Bool := m.paginate_by.isSome

/-- Modelled from the spec: the default section front matter used by
`Section::default()` (sort mode `None`, no pagination, rendered). -/
def SectionMeta.default : SectionMeta :=
  { sort_by := SortBy.none, paginate_by := none, paginate_path := none,
    render := true }

/-- The result of the external front-matter parser on one content file
(§6 `parse(rawBytes) → (metadata, bodyText)`): both metadata readings,
the body text, and the body's relative cross-references, abstracted from
the raw bytes. -/
structure Doc where
  page_meta : PageMeta
  section_meta : SectionMeta
  links : List Path
  body : String
  deriving DecidableEq, Repr

/-- The error taxonomy of §7 that the embedded fragment can surface. -/
inductive Err where
  | ioFailure (path : Path)
  | parseFailure (path : Path)
  | linkResolution (link : Path)
  deriving DecidableEq, Repr

/-- A `Page` record as in `page.rs`, restricted to the fields `site.rs`
reads: source path key, parent directory, relative path, permalink,
front matter, body cross-references, rendered body, and the previous/next
links (modelled by the neighbour's source path, per §3). -/
structure Page where
  file_path : Path
  parent_path : Path
  relative_path : Path
  permalink : String
  meta : PageMeta
  links : List Path
  content : String
  previous : Option Path
  next : Option Path
  deriving DecidableEq, Repr

/-- A `Section` record as in `section.rs`, restricted to the fields
`site.rs` reads.  `subsections` stores cloned child `Section` values, as the
source does, which makes the type a nested inductive. -/
inductive Section : Type where
  | mk (file_path parent_path relative_path : Path) (permalink : String)
       (meta : SectionMeta) (links : List Path) (content : String)
       (pages ignored_pages : List Page) (subsections : List Section) :
       Section

def Section.file_path : Section → Path
  | .mk fp _ _ _ _ _ _ _ _ _ => fp

def Section.parent_path : Section → Path
  | .mk _ pp _ _ _ _ _ _ _ _ => pp

def Section.relative_path : Section → Path
  | .mk _ _ rp _ _ _ _ _ _ _ => rp

def Section.permalink : Section → String
  | .mk _ _ _ pl _ _ _ _ _ _ => pl

def Section.meta : Section → SectionMeta
  | .mk _ _ _ _ m _ _ _ _ _ => m

def Section.links : Section → List Path
  | .mk _ _ _ _ _ lk _ _ _ _ => lk

def Section.content : Section → String
  | .mk _ _ _ _ _ _ c _ _ _ => c

def Section.pages : Section → List Page
  | .mk _ _ _ _ _ _ _ pgs _ _ => pgs

def Section.ignored_pages : Section → List Page
  | .mk _ _ _ _ _ _ _ _ ign _ => ign

def Section.subsections : Section → List Section
  | .mk _ _ _ _ _ _ _ _ _ subs => subs

/-- Replace the child-page list (the effect of `section.pages.push`). -/
def Section.withPages : Section → List Page → Section
  | .mk fp pp rp pl m lk c _ ign subs, pgs => .mk fp pp rp pl m lk c pgs ign subs

/-- Replace the three derived lists at once (the effect of the second loop
of `populate_sections` on one section). -/
def Section.withLists : Section → List Page → List Page → List Section → Section
  | .mk fp pp rp pl m lk c _ _ _, pgs, ign, subs => .mk fp pp rp pl m lk c pgs ign subs

/-- Replace the rendered body (the effect of `render_markdown`). -/
def Section.withContent : Section → String → Section
  | .mk fp pp rp pl m lk _ pgs ign subs, c => .mk fp pp rp pl m lk c pgs ign subs

/-- Replace the permalink (the one mutation `load` applies to the synthetic
root section). -/
def Section.withPermalink : Section → String → Section
  | .mk fp pp rp _ m lk c pgs ign subs, pl => .mk fp pp rp pl m lk c pgs ign subs

/-- Modelled from the spec: `Section::default()` — every field empty, default
front matter. -/
def Section.default : Section :=
  .mk [] [] [] "" SectionMeta.default [] "" [] [] []

/-- Modelled from the spec (§6): the config options the core recognizes.
`config.rs` is not part of the snapshot. -/
structure Config where
  base_url : String
  generate_rss : Bool
  generate_tags_pages : Bool
  generate_categories_pages : Bool
  deriving DecidableEq, Repr

/-- Modelled from the spec (§4.2): the canonical URL is the base URL joined
with the item's logical path. -/
def Config.make_permalink (c : Config) (parts : List String) : String :=
  parts.foldl (fun acc p => acc ++ "/" ++ p) c.base_url

/-- The reserved index filename. -/
def indexFileName : String := "_index.md"

/-- Whether a changed path names a section index file: the test
`path.ends_with("_index.md")` of `rebuild_after_content_change`, and
equally the `path.file_name() == "_index.md"` dispatch of `load` (for a
single-component pattern both compare the last component). -/
def isIndexPath (p : Path) : Bool := decide (p.getLast? = some indexFileName)

/-- The directory containing a path, `Path::parent` (`none` on the empty
path, mirroring `Path::new("").parent() == None`). -/
def parentDir (p : Path) : Option Path :=
  match p with
  | [] => none
  | _ :: _ => some p.dropLast

/-- The source path relative to the content root: the component list with
the leading `content` directory stripped (spec §3 relative path). -/
def relOf (p : Path) : Path :=
  match p with
  | "content" :: rest => rest
  | _ => p

/-- Modelled from the spec: strip the `.md` suffix of a file name when
deriving a page's logical path. -/
def stripMd (s : String) : String :=
  if s.endsWith ".md" then s.dropRight 3 else s

/-- Modelled from the spec (§4.2): a page's logical path is its relative
source path with the `.md` suffix stripped from the file name. -/
def pageLogicalPath (rel : Path) : Path :=
  rel.dropLast ++ (rel.getLast?.toList.map stripMd)

/-- Modelled from the spec (§4.2): a section's logical path is its relative
source path with the reserved index filename stripped. -/
def sectionLogicalPath (rel : Path) : Path := rel.dropLast

/-- Modelled from the spec: markdown-to-HTML conversion is an external
collaborator; only the body text it receives is observable here, so it is
abstracted as the identity on body text. -/
def htmlOf (s : String) : String := s

/-- Modelled from the spec: the external slug library; slug computation is
not specified, so it is abstracted as the identity. -/
def slugify (s : String) : String := s

/-- What reading one file from disk can yield: `none` when the file does
not exist (an I/O failure), `some none` when the front-matter parser
rejects it, `some (some doc)` on success. -/
abbrev FileRead := Option (Option Doc)

/-- The filesystem visible to `load` and to the incremental controller:
the discovered content files in glob order, each with its parse result. -/
abbrev FS := Smap Path (Option Doc)

/-- The `Page` record `Page::from_file` builds from a successfully parsed
file: the path-based attributes of §3 are derived from the source path, the
rendered body starts as the raw body text, and previous/next are unset. -/
def pageOfDoc (cfg : Config) (path : Path) (doc : Doc) : Page :=
  { file_path := path
    parent_path := path.dropLast
    relative_path := relOf path
    permalink := cfg.make_permalink (pageLogicalPath (relOf path))
    meta := doc.page_meta
    links := doc.links
    content := doc.body
    previous := none
    next := none }

/-- Modelled from the spec: `Page::from_file` of `page.rs` — read and parse
one file, then derive the record's attributes from the path and the parsed
document. -/
def Page.from_file (cfg : Config) (path : Path) : FileRead → Except Err Page
  | none => .error (.ioFailure path)
  | some none => .error (.parseFailure path)
  | some (some doc) => .ok (pageOfDoc cfg path doc)

/-- The `Section` record `Section::from_file` builds from a successfully
parsed index file (child lists start empty). -/
def sectionOfDoc (cfg : Config) (path : Path) (doc : Doc) : Section :=
  .mk path path.dropLast (relOf path)
     (cfg.make_permalink (sectionLogicalPath (relOf path)))
     doc.section_meta doc.links doc.body [] [] []

/-- Modelled from the spec: `Section::from_file` of `section.rs`. -/
def Section.from_file (cfg : Config) (path : Path) : FileRead → Except Err Section
  | none => .error (.ioFailure path)
  | some none => .error (.parseFailure path)
  | some (some doc) => .ok (sectionOfDoc cfg path doc)

/-- Modelled from the spec (§4.2, §6): rendering a body resolves each of its
relative cross-references in the permalink table and fails with a
link-resolution error on the first reference that is absent; otherwise it
produces the converted body. -/
def renderBody (links : List Path) (body : String) (table : Smap Path String) :
    Except Err String :=
  match links.find? (fun l => (mapLookup table l).isNone) with
  | some l => .error (.linkResolution l)
  | none => .ok (htmlOf body)

/-- `page.render_markdown(&permalinks, ...)`: only the rendered body
changes. -/
def Page.render_markdown (p : Page) (table : Smap Path String) : Except Err Page :=
  match renderBody p.links p.content table with
  | .error e => .error e
  | .ok c => .ok { p with content := c }

/-- `section.render_markdown(&permalinks, ...)`: only the rendered body
changes. -/
def Section.render_markdown (s : Section) (table : Smap Path String) :
    Except Err Section :=
  match renderBody s.links s.content table with
  | .error e => .error e
  | .ok c => .ok (s.withContent c)

/-- Stable insertion step: walk past every element that strictly precedes
`x` under `pre`, then place `x`.  An element equal to `x` under the induced
preorder therefore keeps its earlier position. -/
def insBefore {α : Type} (pre : α → α → Bool) (x : α) : List α → List α
  | [] => [x]
  | y :: ys => if pre y x then y :: insBefore pre x ys else x :: y :: ys

/-- Stable sort by the strict-precedence test `pre`.  A stable sort is
determined up to extensional equality by its comparator, so this models the
stable sorts of the source (Rust `sort_by`, and the sorting inside
`sort_pages`). -/
def stableSortBy {α : Type} (pre : α → α → Bool) : List α → List α
  | [] => []
  | x :: xs => insBefore pre x (stableSortBy pre xs)

/-- Modelled from the spec (§4.1 sort): apply the section's sort mode,
moving pages that lack the needed key to the ignored list; `Date` and
`Weight` sort descending, `Order` ascending, `None` keeps discovery
order. -/
def sort_pages (pages : List Page) (sb : SortBy) : List Page × List Page :=
  match sb with
  | .none => (pages, [])
  | .date =>
      let split := pages.partition (fun p => p.meta.date.isSome)
      (stableSortBy (fun a b => decide ((b.meta.date.getD 0) < (a.meta.date.getD 0))) split.1,
       split.2)
  | .order =>
      let split := pages.partition (fun p => p.meta.order.isSome)
      (stableSortBy (fun a b => decide ((a.meta.order.getD 0) < (b.meta.order.getD 0))) split.1,
       split.2)
  | .weight =>
      let split := pages.partition (fun p => p.meta.weight.isSome)
      (stableSortBy (fun a b => decide ((b.meta.weight.getD 0) < (a.meta.weight.getD 0))) split.1,
       split.2)

/-- Helper for the previous/next chain: link each page to its neighbours,
carrying the predecessor's identity. -/
def linkNeighbors : Option Path → List Page → List Page
  | _, [] => []
  | prev, [p] => [{ p with previous := prev, next := none }]
  | prev, p :: q :: rest =>
      { p with previous := prev, next := some q.file_path } ::
        linkNeighbors (some p.file_path) (q :: rest)

/-- Modelled from the spec (§4.1): assign each ordered page its immediate
predecessor and successor. -/
def populate_previous_and_next_pages (pages : List Page) : List Page :=
  linkNeighbors none pages

/-- The `Site` state of `site.rs`, restricted to the content-graph fields.
The template engine, live-reload flag and the output/static directories are
external collaborators and carry no graph state. -/
structure Site where
  config : Config
  pages : Smap Path Page
  sections : Smap Path Section
  tags : Smap String (List Path)
  categories : Smap String (List Path)
  permalinks : Smap Path String

/-- `Site::new`: an empty site for the given configuration. -/
def Site.new (cfg : Config) : Site :=
  { config := cfg, pages := [], sections := [], tags := [], categories := [],
    permalinks := [] }

/-- The root index path `base_path.join("content").join("_index.md")`. -/
def rootIndexPath : Path := ["content", indexFileName]

/-- `Site::add_page`: parse the file and insert the page at its source
path. -/
def Site.add_page (site : Site) (path : Path) (fd : FileRead) : Except Err Site :=
  match Page.from_file site.config path fd with
  | .error e => .error e
  | .ok page => .ok { site with pages := mapInsert site.pages page.file_path page }

/-- `Site::add_section`: parse the index file and insert the section at its
source path. -/
def Site.add_section (site : Site) (path : Path) (fd : FileRead) : Except Err Site :=
  match Section.from_file site.config path fd with
  | .error e => .error e
  | .ok sec =>
      .ok { site with sections := mapInsert site.sections sec.file_path sec }

/-- One step of the first loop of `populate_sections`: when the page's
parent directory owns an index file, push the page onto that section's
existing child list. -/
def pushOnePage (secs : Smap Path Section) (page : Page) : Smap Path Section :=
  let key := page.parent_path ++ [indexFileName]
  match mapLookup secs key with
  | some s => mapInsert secs key (s.withPages (s.pages ++ [page]))
  | none => secs

/-- The first loop of `populate_sections`, over every page of the site. -/
def pushPagesIntoSections (pages : List Page) (secs : Smap Path Section) :
    Smap Path Section :=
  pages.foldl pushOnePage secs

/-- The grandparent map of `populate_sections`: every section is recorded
under the parent of its own parent directory. -/
def grandparentMap (secs : List Section) : Smap Path (List Section) :=
  secs.foldl
    (fun m s =>
      match parentDir s.parent_path with
      | some g => mapInsert m g ((mapLookup m g).getD [] ++ [s])
      | none => m)
    []

/-- The body of the second loop of `populate_sections`, on one section:
sort the (accumulated) child list, assign previous/next, store the
unsortable pages, and extend the subsection list with every section whose
grandparent directory matches. -/
def deriveSection (gp : Smap Path (List Section)) (s : Section) : Section :=
  let sorted := sort_pages s.pages s.meta.sort_by
  s.withLists (populate_previous_and_next_pages sorted.1) sorted.2
    (s.subsections ++ (mapLookup gp s.parent_path).getD [])

/-- `Site::populate_sections`: push pages into their parent sections, then
run the second loop on every section.  Note that neither the child lists
nor the subsection lists are cleared first. -/
def Site.populate_sections (site : Site) : Site :=
  let secs1 := pushPagesIntoSections (mapValues site.pages) site.sections
  let gp := grandparentMap (mapValues secs1)
  { site with sections := secs1.map (fun kv => (kv.1, deriveSection gp kv.2)) }

/-- One page's contribution to the tag and category maps: append its path
to its category's bucket and to the bucket of each of its tags. -/
def addPageToIndexes (tc : Smap String (List Path) × Smap String (List Path))
    (page : Page) : Smap String (List Path) × Smap String (List Path) :=
  let cats :=
    match page.meta.category with
    | some c => mapInsert tc.2 c ((mapLookup tc.2 c).getD [] ++ [page.file_path])
    | none => tc.2
  let tags :=
    match page.meta.tags with
    | some ts =>
        ts.foldl
          (fun m tag => mapInsert m tag ((mapLookup m tag).getD [] ++ [page.file_path]))
          tc.1
    | none => tc.1
  (tags, cats)

/-- `Site::populate_tags_and_categories`: fold every page's tags and
category into the existing maps.  Note that the maps are not cleared
first. -/
def Site.populate_tags_and_categories (site : Site) : Site :=
  let tc := (mapValues site.pages).foldl addPageToIndexes (site.tags, site.categories)
  { site with tags := tc.1, categories := tc.2 }

/-- The permalink table built by `load`: one entry per page, then one entry
per section, keyed by relative path. -/
def buildPermalinkTable (pages : Smap Path Page) (secs : Smap Path Section) :
    Smap Path String :=
  (mapValues secs).foldl
    (fun t s => mapInsert t s.relative_path s.permalink)
    ((mapValues pages).foldl (fun t p => mapInsert t p.relative_path p.permalink) [])

/-- The `for page in self.pages.values_mut() { page.render_markdown(...)? }`
loop of `load`: render every page body against the table, aborting on the
first failure. -/
def renderAllPages (table : Smap Path String) :
    Smap Path Page → Except Err (Smap Path Page)
  | [] => .ok []
  | kv :: rest =>
      match kv.2.render_markdown table with
      | .error e => .error e
      | .ok p =>
          match renderAllPages table rest with
          | .error e => .error e
          | .ok rest' => .ok ((kv.1, p) :: rest')

/-- The corresponding loop over sections. -/
def renderAllSections (table : Smap Path String) :
    Smap Path Section → Except Err (Smap Path Section)
  | [] => .ok []
  | kv :: rest =>
      match kv.2.render_markdown table with
      | .error e => .error e
      | .ok s =>
          match renderAllSections table rest with
          | .error e => .error e
          | .ok rest' => .ok ((kv.1, s) :: rest')

/-- The discovery loop of `load`: dispatch every glob entry to
`add_section` or `add_page` on its file name, aborting on the first
error. -/
def Site.loadContent (site : Site) : FS → Except Err Site
  | [] => .ok site
  | e :: rest =>
      match (if isIndexPath e.1 then site.add_section e.1 (some e.2)
             else site.add_page e.1 (some e.2)) with
      | .error err => .error err
      | .ok site' => site'.loadContent rest

/-- The synthetic root section `load` inserts when no index file exists at
the content root: a default section whose permalink is the base URL. -/
def defaultRootSection (cfg : Config) : Section :=
  Section.default.withPermalink (cfg.make_permalink [])

/-- The discovery phase of `load`: read every content file, then insert the
synthetic root section if the content root has no index file. -/
def Site.loadDiscovery (cfg : Config) (fs : FS) : Except Err Site :=
  match (Site.new cfg).loadContent fs with
  | .error e => .error e
  | .ok site1 =>
      .ok (if (mapLookup site1.sections rootIndexPath).isSome then site1
           else { site1 with
                  sections := mapInsert site1.sections rootIndexPath
                    (defaultRootSection cfg) })

/-- `Site::load` (`loadAll` of §6): discover all content, build the full
permalink table, render every page and section body against it, store the
table, then derive the section graph and the tag/category indexes. -/
def Site.load (cfg : Config) (fs : FS) : Except Err Site :=
  match Site.loadDiscovery cfg fs with
  | .error e => .error e
  | .ok site2 =>
      let table := buildPermalinkTable site2.pages site2.sections
      match renderAllPages table site2.pages with
      | .error e => .error e
      | .ok pages' =>
          match renderAllSections table site2.sections with
          | .error e => .error e
          | .ok secs' =>
              let site3 : Site :=
                { site2 with
                  pages := pages'
                  sections := secs'
                  permalinks := table }
              .ok ((site3.populate_sections).populate_tags_and_categories)

/-- `Section::all_pages_path` of `section.rs` (modelled from the spec and
its use in `get_all_orphan_pages`): the source paths of the ordered and of
the ignored child pages. -/
def Section.all_pages_path (s : Section) : List Path :=
  s.pages.map Page.file_path ++ s.ignored_pages.map Page.file_path

/-- `Site::get_all_orphan_pages`: every page whose path appears in no
section's child lists. -/
def Site.get_all_orphan_pages (site : Site) : List Page :=
  let pages_in_sections :=
    (mapValues site.sections).foldl (fun acc s => acc ++ s.all_pages_path) []
  (mapValues site.pages).filter (fun p => !(pages_in_sections.contains p.file_path))

/-- The output artifacts the renderer and output writer produce; writing
bytes is an external collaborator, so a build is observed as the list of
artifacts written, in order. -/
inductive Action where
  | cleanOutput
  | renderPage (path : Path)
  | renderSection (path : Path)
  | renderSitemap
  | renderRss
  | renderRobots
  | renderCategoriesPages
  | renderTagsPages
  | copyStatic
  deriving DecidableEq, Repr

/-- A tag or category entry of the downstream list pages (`ListItem` of
`site.rs`). -/
structure ListItem where
  name : String
  slug : String
  count : Nat
  deriving DecidableEq, Repr

/-- `ListItem::new`. -/
def ListItem.new (name : String) (count : Nat) : ListItem :=
  { name := name, slug := slugify name, count := count }

/-- The sorted item list of `render_categories_and_tags`: one `ListItem`
per bucket, stably sorted by `b.count.cmp(&a.count)`, i.e. by descending
bucket size only. -/
def sorted_list_items (items : Smap String (List Path)) : List ListItem :=
  stableSortBy (fun a b => decide (b.count < a.count))
    (items.map (fun kv => ListItem.new kv.1 kv.2.length))

/-- Lexical order on character lists, by code point. -/
def charListLt : List Char → List Char → Bool
  | [], [] => false
  | [], _ :: _ => true
  | _ :: _, [] => false
  | a :: as, b :: bs =>
      if a.toNat < b.toNat then true
      else if b.toNat < a.toNat then false
      else charListLt as bs

/-- Natural lexical order on names. -/
def nameLt (a b : String) : Bool := charListLt a.data b.data

/-- Definition following the spec's words (§4.3), for comparison with the
source's `sorted_list_items`: descending bucket size, ties broken by the
item name's natural lexical order. -/
def spec_sorted_list_items (items : Smap String (List Path)) : List ListItem :=
  stableSortBy
    (fun a b => decide (b.count < a.count) ||
      (decide (b.count = a.count) && nameLt a.name b.name))
    (items.map (fun kv => ListItem.new kv.1 kv.2.length))

/-- The RSS page selection of `render_rss_feed`: the pages that have a
date, at most the first fifteen of them. -/
def Site.rss_pages (site : Site) : List Page :=
  ((mapValues site.pages).filter (fun p => p.meta.date.isSome)).take 15

/-- The artifacts `render_rss_feed` writes: nothing at all when no page has
a date, otherwise the single feed file. -/
def Site.render_rss_feed_actions (site : Site) : List Action :=
  if site.rss_pages.isEmpty then [] else [Action.renderRss]

/-- The artifacts `render_categories_and_tags` writes for one kind: nothing
when the map is empty, otherwise the kind's listing (the per-item pages are
subsumed in the one artifact). -/
def renderListActions (items : Smap String (List Path)) (a : Action) : List Action :=
  if items.isEmpty then [] else [a]

/-- The artifacts `render_sections` writes: for every section in order, its
child pages' outputs, then its own index output unless rendering is
disabled (pagination writes to the same index artifact). -/
def Site.render_sections_actions (site : Site) : List Action :=
  (mapValues site.sections).foldl
    (fun acts s =>
      acts ++ s.pages.map (fun p => Action.renderPage p.file_path) ++
        (if s.meta.should_render then [Action.renderSection s.file_path] else []))
    []

/-- The artifacts of `Site::build`, in source order: clean the output
directory, render all sections, render orphan pages, the sitemap, the RSS
feed when enabled, robots.txt, the category and tag pages when enabled, and
copy the static directory. -/
def Site.build_actions (site : Site) : List Action :=
  [Action.cleanOutput] ++
    site.render_sections_actions ++
    site.get_all_orphan_pages.map (fun p => Action.renderPage p.file_path) ++
    [Action.renderSitemap] ++
    (if site.config.generate_rss then site.render_rss_feed_actions else []) ++
    [Action.renderRobots] ++
    (if site.config.generate_categories_pages then
       renderListActions site.categories Action.renderCategoriesPages
     else []) ++
    (if site.config.generate_tags_pages then
       renderListActions site.tags Action.renderTagsPages
     else []) ++
    [Action.copyStatic]

/-- `Site::add_section_and_render`: re-parse the section, store it, patch
its permalink-table entry, and render its body against the patched table.
The stored record is the freshly parsed one with its body rendered. -/
def Site.add_section_and_render (site : Site) (fs : FS) (path : Path) :
    Except Err Site :=
  match Section.from_file site.config path (mapLookup fs path) with
  | .error e => .error e
  | .ok sec =>
      let permalinks := mapInsert site.permalinks sec.relative_path sec.permalink
      match sec.render_markdown permalinks with
      | .error e => .error e
      | .ok sec2 =>
          .ok { site with
                sections := mapInsert site.sections sec2.file_path sec2
                permalinks := permalinks }

/-- `Site::add_page_and_render`: remember the previous record, re-parse the
page, store it, patch its permalink-table entry, render its body, and
report whether the front matter differs from the previous record (a page
never seen before counts as changed). -/
def Site.add_page_and_render (site : Site) (fs : FS) (path : Path) :
    Except Err (Bool × Page × Site) :=
  let existing := mapLookup site.pages path
  match Page.from_file site.config path (mapLookup fs path) with
  | .error e => .error e
  | .ok page =>
      let permalinks := mapInsert site.permalinks page.relative_path page.permalink
      match page.render_markdown permalinks with
      | .error e => .error e
      | .ok page2 =>
          let site2 : Site :=
            { site with
              pages := mapInsert site.pages page2.file_path page2
              permalinks := permalinks }
          match existing with
          | some prev => .ok (decide (¬ prev.meta = page2.meta), page2, site2)
          | none => .ok (true, page2, site2)

/-- The observable outcome of an incremental update: a new state with the
artifacts written, a surfaced error, or a crash of the process (the
`self.sections[path]` / `self.pages[path]` indexing of the deletion
branch). -/
inductive Outcome (α : Type) where
  | ok (val : α) : Outcome α
  | err (e : Err) : Outcome α
  | crashed : Outcome α
  deriving DecidableEq, Repr

/-- `Site::rebuild_after_content_change`, the single entry point of the
incremental update controller for content changes (`applyChange` of §6):
an existing index file is re-added and rendered and then every section's
output is re-rendered; an existing page file is re-added and rendered, and
either only its own output is written (front matter unchanged) or the
section graph and the indexes are re-derived and a full build runs; a
missing file is removed from the permalink table and its collection, the
graph and indexes are re-derived, and a full build runs. -/
def Site.rebuild_after_content_change (site : Site) (fs : FS) (path : Path) :
    Outcome (Site × List Action) :=
  let is_section := isIndexPath path
  if (mapLookup fs path).isSome then
    if is_section then
      match site.add_section_and_render fs path with
      | .error e => .err e
      | .ok site1 => .ok (site1, site1.render_sections_actions)
    else
      match site.add_page_and_render fs path with
      | .error e => .err e
      | .ok res =>
          let frontmatter_changed := res.1
          let page := res.2.1
          let site1 := res.2.2
          if frontmatter_changed then
            let site2 := (site1.populate_sections).populate_tags_and_categories
            .ok (site2, site2.build_actions)
          else
            .ok (site1, [Action.renderPage page.file_path])
  else
    let stored :=
      if is_section then (mapLookup site.sections path).map Section.relative_path
      else (mapLookup site.pages path).map Page.relative_path
    match stored with
    | none => .crashed
    | some rel =>
        let site1 := { site with permalinks := mapRemove site.permalinks rel }
        let site2 :=
          if is_section then { site1 with sections := mapRemove site1.sections path }
          else { site1 with pages := mapRemove site1.pages path }
        let site3 := (site2.populate_sections).populate_tags_and_categories
        .ok (site3, site3.build_actions)

/-! Concrete sites used to evaluate the embedded code on specific inputs. -/

/-- A page front matter with every optional field absent. -/
def PageMeta.blank : PageMeta :=
  { title := none, date := none, order := none, weight := none, tags := none,
    category := none, template := none, draft := false }

/-- A parsed document carrying the given page front matter and no
cross-references. -/
def docOfPageMeta (m : PageMeta) (body : String) : Doc :=
  { page_meta := m, section_meta := SectionMeta.default, links := [], body := body }

/-- A parsed index document with default section front matter. -/
def docOfSection (body : String) : Doc :=
  { page_meta := PageMeta.blank, section_meta := SectionMeta.default,
    links := [], body := body }

/-- A fixed configuration for the examples. -/
def cfg0 : Config :=
  { base_url := "http://ex.org", generate_rss := false,
    generate_tags_pages := true, generate_categories_pages := true }

/-- The source path of the orphan page of the deletion scenario. -/
def pathA : Path := ["content", "a.md"]

/-- The orphan page of the deletion scenario: tagged "x", nothing else. -/
def docA : Doc := docOfPageMeta { PageMeta.blank with tags := some ["x"] } "bodyA"

/-- A content root holding only the orphan page tagged "x". -/
def fsTagged : FS := [(pathA, some docA)]

/-- The site loaded from `fsTagged`. -/
def siteTagged : Site :=
  match Site.load cfg0 fsTagged with
  | .ok s => s
  | .error _ => Site.new cfg0

/-- The content root after `content/a.md` is deleted. -/
def fsTaggedDeleted : FS := []

/-- The site after the incremental deletion of `content/a.md`. -/
def siteAfterDelete : Site :=
  match siteTagged.rebuild_after_content_change fsTaggedDeleted pathA with
  | .ok res => res.1
  | _ => Site.new cfg0

/-- The index path of the blog section. -/
def pathBlogIdx : Path := ["content", "blog", indexFileName]

/-- The source path of the blog page. -/
def pathBlogA : Path := ["content", "blog", "a.md"]

/-- The index path of a subsection nested inside the blog section. -/
def pathBlogSubIdx : Path := ["content", "blog", "sub", indexFileName]

/-- A content root with the blog section, one blog page and one nested
subsection. -/
def fsBlog : FS :=
  [(pathBlogIdx, some (docOfSection "blog")),
   (pathBlogA, some (docOfPageMeta PageMeta.blank "a")),
   (pathBlogSubIdx, some (docOfSection "sub"))]

/-- The site loaded from `fsBlog` (this already runs `populate_sections`
once). -/
def siteBlog : Site :=
  match Site.load cfg0 fsBlog with
  | .ok s => s
  | .error _ => Site.new cfg0

/-- `siteBlog` after a second invocation of `populate_sections` on the same
site. -/
def siteBlogTwice : Site := siteBlog.populate_sections

/-- How often a given page path occurs in a section's ordered-plus-ignored
child lists. -/
def childPageCount (site : Site) (secPath pagePath : Path) : Nat :=
  match mapLookup site.sections secPath with
  | some s =>
      ((s.pages ++ s.ignored_pages).filter (fun p => p.file_path = pagePath)).length
  | none => 0

/-- How often a given section path occurs in a section's subsection
list. -/
def subsectionCount (site : Site) (secPath subPath : Path) : Nat :=
  match mapLookup site.sections secPath with
  | some s => (s.subsections.filter (fun sub => sub.file_path = subPath)).length
  | none => 0

/-- The index path of a second, unrelated section. -/
def pathOtherIdx : Path := ["content", "other", indexFileName]

/-- A content root with two sibling sections, one of them holding a page. -/
def fsTwoSections : FS :=
  [(pathBlogIdx, some (docOfSection "blog")),
   (pathBlogA, some (docOfPageMeta PageMeta.blank "a")),
   (pathOtherIdx, some (docOfSection "other"))]

/-- The site loaded from `fsTwoSections`. -/
def siteTwoSections : Site :=
  match Site.load cfg0 fsTwoSections with
  | .ok s => s
  | .error _ => Site.new cfg0

/-- The incremental update applied to the blog index file of
`siteTwoSections` while the file still exists on disk. -/
def sectionUpdateResult : Outcome (Site × List Action) :=
  siteTwoSections.rebuild_after_content_change fsTwoSections pathBlogIdx

/-- The artifact list the section update produces. -/
def sectionUpdateActions : List Action :=
  match sectionUpdateResult with
  | .ok res => res.2
  | _ => []

/-- The site state the section update produces. -/
def sectionUpdateSite : Site :=
  match sectionUpdateResult with
  | .ok res => res.1
  | _ => Site.new cfg0

/-! Association-list map lemmas. -/

theorem mapLookup_insert_self {K V : Type} [DecidableEq K] (m : Smap K V) (k : K) (v : V) :
    mapLookup (mapInsert m k v) k = some v := by
  induction m with
  | nil => simp [mapInsert, mapLookup]
  | cons kv rest ih =>
      obtain ⟨k', v'⟩ := kv
      by_cases h : k' = k
      · simp [mapInsert, h, mapLookup]
      · simp [mapInsert, h, mapLookup, ih]

theorem mapLookup_insert_ne {K V : Type} [DecidableEq K] (m : Smap K V) (k k' : K) (v : V)
    (h : k' ≠ k) : mapLookup (mapInsert m k v) k' = mapLookup m k' := by
  induction m with
  | nil =>
      simp only [mapInsert, mapLookup]
      rw [if_neg (fun hh => h hh.symm)]
  | cons kv rest ih =>
      obtain ⟨k0, v0⟩ := kv
      by_cases h0 : k0 = k
      · subst h0
        simp only [mapInsert, if_pos rfl, mapLookup]
        rw [if_neg (fun hh => h hh.symm), if_neg (fun hh => h hh.symm)]
      · simp only [mapInsert, if_neg h0, mapLookup]
        by_cases h1 : k0 = k'
        · rw [if_pos h1, if_pos h1]
        · rw [if_neg h1, if_neg h1, ih]

theorem mapLookup_remove_self {K V : Type} [DecidableEq K] (m : Smap K V) (k : K) :
    mapLookup (mapRemove m k) k = none := by
  induction m with
  | nil => simp [mapRemove, mapLookup]
  | cons kv rest ih =>
      obtain ⟨k', v'⟩ := kv
      by_cases h : k' = k
      · simp [mapRemove, h, ih]
      · simp [mapRemove, h, mapLookup, ih]

theorem mapLookup_remove_ne {K V : Type} [DecidableEq K] (m : Smap K V) (k k' : K)
    (h : k' ≠ k) : mapLookup (mapRemove m k) k' = mapLookup m k' := by
  induction m with
  | nil => simp [mapRemove]
  | cons kv rest ih =>
      obtain ⟨k0, v0⟩ := kv
      by_cases h0 : k0 = k
      · subst h0
        have hk : ¬ k0 = k' := fun hh => h hh.symm
        simp [mapRemove, mapLookup, hk, ih]
      · by_cases h1 : k0 = k'
        · simp [mapRemove, mapLookup, h0, h1, h]
        · simp [mapRemove, mapLookup, h0, h1, ih]

theorem mapLookup_mapPair {K V W : Type} [DecidableEq K] (f : V → W) (l : Smap K V) (k : K) :
    mapLookup (l.map (fun kv => (kv.1, f kv.2))) k = (mapLookup l k).map f := by
  induction l with
  | nil => simp [mapLookup]
  | cons kv rest ih =>
      by_cases h : kv.1 = k
      · simp [mapLookup, h]
      · simp [mapLookup, h, ih]

theorem mapValues_mapPair {K V W : Type} (f : V → W) (l : Smap K V) :
    mapValues (l.map (fun kv => (kv.1, f kv.2))) = (mapValues l).map f := by
  simp [mapValues, List.map_map]

theorem mem_values_of_mapLookup {K V : Type} [DecidableEq K] {m : Smap K V} {k : K} {v : V}
    (h : mapLookup m k = some v) : v ∈ mapValues m := by
  induction m with
  | nil => simp [mapLookup] at h
  | cons kv rest ih =>
      by_cases h0 : kv.1 = k
      · simp [mapLookup, h0] at h
        simp [mapValues, h]
      · simp [mapLookup, h0] at h
        simp [mapValues]
        exact Or.inr (by simpa [mapValues] using ih h)

theorem mem_values_insert {K V : Type} [DecidableEq K] {m : Smap K V} {k : K} {v w : V}
    (h : w ∈ mapValues (mapInsert m k v)) : w = v ∨ w ∈ mapValues m := by
  induction m with
  | nil => simpa [mapInsert, mapValues] using h
  | cons kv rest ih =>
      obtain ⟨k0, v0⟩ := kv
      by_cases h0 : k0 = k
      · simp [mapInsert, h0, mapValues] at h
        rcases h with h | h
        · exact Or.inl h
        · exact Or.inr (by simp [mapValues, h])
      · simp [mapInsert, h0, mapValues] at h
        rcases h with h | h
        · exact Or.inr (by simp [mapValues, h])
        · rcases ih (by simpa [mapValues] using h) with h1 | h1
          · exact Or.inl h1
          · exact Or.inr (by simp [mapValues]; exact Or.inr (by simpa [mapValues] using h1))

/-! Frame lemmas: which `Site` fields each derivation step leaves alone. -/

theorem populate_sections_pages (site : Site) :
    (site.populate_sections).pages = site.pages := rfl

theorem populate_sections_tags (site : Site) :
    (site.populate_sections).tags = site.tags := rfl

theorem populate_sections_categories (site : Site) :
    (site.populate_sections).categories = site.categories := rfl

theorem populate_sections_permalinks (site : Site) :
    (site.populate_sections).permalinks = site.permalinks := rfl

theorem populate_sections_config (site : Site) :
    (site.populate_sections).config = site.config := rfl

theorem populate_tags_sections (site : Site) :
    (site.populate_tags_and_categories).sections = site.sections := rfl

theorem populate_tags_pages (site : Site) :
    (site.populate_tags_and_categories).pages = site.pages := rfl

theorem populate_tags_permalinks (site : Site) :
    (site.populate_tags_and_categories).permalinks = site.permalinks := rfl

theorem populate_tags_config (site : Site) :
    (site.populate_tags_and_categories).config = site.config := rfl

/-! Shape preservation: every derivation step keeps a section's identity
fields (relative path, permalink, front matter, cross-references); only the
derived lists and the rendered body change. -/

/-- The fields of a section no derivation step may change. -/
def SecShape (s : Section) : Path × Path × String × SectionMeta × List Path :=
  (s.file_path, s.relative_path, s.permalink, s.meta, s.links)

theorem secShape_withPages (s : Section) (pgs : List Page) :
    SecShape (s.withPages pgs) = SecShape s := by
  cases s
  rfl

theorem secShape_withLists (s : Section) (pgs ign : List Page) (subs : List Section) :
    SecShape (s.withLists pgs ign subs) = SecShape s := by
  cases s
  rfl

theorem secShape_withContent (s : Section) (c : String) :
    SecShape (s.withContent c) = SecShape s := by
  cases s
  rfl

theorem pushOnePage_lookup_shape (secs : Smap Path Section) (p : Page) (k : Path) :
    (mapLookup (pushOnePage secs p) k).map SecShape =
      (mapLookup secs k).map SecShape := by
  unfold pushOnePage
  cases hl : mapLookup secs (p.parent_path ++ [indexFileName]) with
  | none => simp only [hl]
  | some s =>
      simp only [hl]
      by_cases hk : k = p.parent_path ++ [indexFileName]
      · subst hk
        rw [mapLookup_insert_self, hl]
        simp [secShape_withPages]
      · rw [mapLookup_insert_ne _ _ _ _ hk]

theorem pushPages_lookup_shape (ps : List Page) (secs : Smap Path Section) (k : Path) :
    (mapLookup (pushPagesIntoSections ps secs) k).map SecShape =
      (mapLookup secs k).map SecShape := by
  induction ps generalizing secs with
  | nil => rfl
  | cons p rest ih =>
      show (mapLookup (pushPagesIntoSections rest (pushOnePage secs p)) k).map SecShape = _
      rw [ih, pushOnePage_lookup_shape]

theorem secShape_deriveSection (gp : Smap Path (List Section)) (s : Section) :
    SecShape (deriveSection gp s) = SecShape s := by
  unfold deriveSection
  simp [secShape_withLists]

theorem populate_sections_lookup_shape (site : Site) (k : Path) :
    (mapLookup (site.populate_sections).sections k).map SecShape =
      (mapLookup site.sections k).map SecShape := by
  show (mapLookup (List.map _ (pushPagesIntoSections (mapValues site.pages) site.sections)) k).map SecShape = _
  rw [mapLookup_mapPair]
  rw [← pushPages_lookup_shape (mapValues site.pages) site.sections k]
  cases mapLookup (pushPagesIntoSections (mapValues site.pages) site.sections) k with
  | none => rfl
  | some s => simp [secShape_deriveSection]

theorem renderBody_ok_inv {links : List Path} {body : String}
    {table : Smap Path String} {c : String}
    (h : renderBody links body table = .ok c) :
    c = htmlOf body ∧ ∀ l ∈ links, (mapLookup table l).isSome := by
  unfold renderBody at h
  cases hf : links.find? (fun l => (mapLookup table l).isNone) with
  | some l => rw [hf] at h; cases h
  | none =>
      rw [hf] at h
      cases h
      refine ⟨rfl, fun l hl => ?_⟩
      have := List.find?_eq_none.mp hf l hl
      cases hcase : mapLookup table l with
      | none => rw [hcase] at this; simp at this
      | some v => rfl

theorem section_render_markdown_ok {s s' : Section} {table : Smap Path String}
    (h : s.render_markdown table = .ok s') :
    s' = s.withContent (htmlOf s.content) ∧ ∀ l ∈ s.links, (mapLookup table l).isSome := by
  unfold Section.render_markdown at h
  cases hr : renderBody s.links s.content table with
  | error e => rw [hr] at h; cases h
  | ok c =>
      rw [hr] at h
      cases h
      obtain ⟨hc, hlinks⟩ := renderBody_ok_inv hr
      exact ⟨by rw [hc], hlinks⟩

theorem page_render_markdown_ok {p p' : Page} {table : Smap Path String}
    (h : p.render_markdown table = .ok p') :
    p' = { p with content := htmlOf p.content } ∧
      ∀ l ∈ p.links, (mapLookup table l).isSome := by
  unfold Page.render_markdown at h
  cases hr : renderBody p.links p.content table with
  | error e => rw [hr] at h; cases h
  | ok c =>
      rw [hr] at h
      cases h
      obtain ⟨hc, hlinks⟩ := renderBody_ok_inv hr
      exact ⟨by rw [hc], hlinks⟩

theorem renderAllSections_lookup_shape {table : Smap Path String}
    {secs secs' : Smap Path Section} (h : renderAllSections table secs = .ok secs')
    (k : Path) :
    (mapLookup secs' k).map SecShape = (mapLookup secs k).map SecShape := by
  induction secs generalizing secs' with
  | nil =>
      unfold renderAllSections at h
      cases h
      rfl
  | cons kv rest ih =>
      unfold renderAllSections at h
      cases hr : kv.2.render_markdown table with
      | error e => rw [hr] at h; cases h
      | ok s =>
          rw [hr] at h
          cases hrest : renderAllSections table rest with
          | error e => rw [hrest] at h; cases h
          | ok rest' =>
              rw [hrest] at h
              cases h
              show (mapLookup ((kv.1, s) :: rest') k).map SecShape = _
              by_cases hk : kv.1 = k
              · simp only [mapLookup, if_pos hk]
                rw [(section_render_markdown_ok hr).1]
                simp [secShape_withContent]
              · simp only [mapLookup, if_neg hk]
                exact ih hrest

/-! Completeness of the permalink table built by `load`. -/

theorem foldl_insert_isSome_mono {K V A : Type} [DecidableEq K]
    (key : A → K) (val : A → V) (xs : List A) (t : Smap K V) (k : K)
    (h : (mapLookup t k).isSome) :
    (mapLookup (xs.foldl (fun t x => mapInsert t (key x) (val x)) t) k).isSome := by
  induction xs generalizing t with
  | nil => exact h
  | cons x rest ih =>
      show (mapLookup (rest.foldl _ (mapInsert t (key x) (val x))) k).isSome
      apply ih
      by_cases hk : k = key x
      · subst hk
        rw [mapLookup_insert_self]
        rfl
      · rw [mapLookup_insert_ne _ _ _ _ hk]
        exact h

theorem foldl_insert_isSome_mem {K V A : Type} [DecidableEq K]
    (key : A → K) (val : A → V) (xs : List A) (t : Smap K V) {x : A}
    (hx : x ∈ xs) :
    (mapLookup (xs.foldl (fun t x => mapInsert t (key x) (val x)) t) (key x)).isSome := by
  induction xs generalizing t with
  | nil => cases hx
  | cons y rest ih =>
      rcases List.mem_cons.mp hx with h | h
      · subst h
        show (mapLookup (rest.foldl _ (mapInsert t (key x) (val x))) (key x)).isSome
        apply foldl_insert_isSome_mono
        rw [mapLookup_insert_self]
        rfl
      · exact ih _ h

theorem buildPermalinkTable_hasPage (pages : Smap Path Page)
    (secs : Smap Path Section) {p : Page} (hp : p ∈ mapValues pages) :
    (mapLookup (buildPermalinkTable pages secs) p.relative_path).isSome := by
  unfold buildPermalinkTable
  apply foldl_insert_isSome_mono Section.relative_path Section.permalink
  exact foldl_insert_isSome_mem Page.relative_path Page.permalink _ _ hp

theorem buildPermalinkTable_hasSection (pages : Smap Path Page)
    (secs : Smap Path Section) {s : Section} (hs : s ∈ mapValues secs) :
    (mapLookup (buildPermalinkTable pages secs) s.relative_path).isSome := by
  unfold buildPermalinkTable
  exact foldl_insert_isSome_mem Section.relative_path Section.permalink _ _ hs

/-! Value-wise description of the rendering loops of `load`. -/

theorem renderAllPages_values {table : Smap Path String}
    {pages pages' : Smap Path Page} (h : renderAllPages table pages = .ok pages') :
    ∀ p' ∈ mapValues pages', ∃ p ∈ mapValues pages,
      p' = { p with content := htmlOf p.content } ∧
      ∀ l ∈ p.links, (mapLookup table l).isSome := by
  induction pages generalizing pages' with
  | nil =>
      unfold renderAllPages at h
      cases h
      intro p' hp'
      cases hp'
  | cons kv rest ih =>
      unfold renderAllPages at h
      cases hr : kv.2.render_markdown table with
      | error e => rw [hr] at h; cases h
      | ok p =>
          rw [hr] at h
          cases hrest : renderAllPages table rest with
          | error e => rw [hrest] at h; cases h
          | ok rest' =>
              rw [hrest] at h
              cases h
              intro p' hp'
              rcases List.mem_cons.mp hp' with h0 | h0
              · obtain ⟨hp, hlinks⟩ := page_render_markdown_ok hr
                refine ⟨kv.2, ?_, by rw [h0, hp], hlinks⟩
                exact List.mem_cons_self _ _
              · obtain ⟨p0, hp0, hshape, hlinks⟩ := ih hrest p' h0
                exact ⟨p0, List.mem_cons_of_mem _ hp0, hshape, hlinks⟩

theorem renderAllSections_values {table : Smap Path String}
    {secs secs' : Smap Path Section} (h : renderAllSections table secs = .ok secs') :
    ∀ s' ∈ mapValues secs', ∃ s ∈ mapValues secs,
      s' = s.withContent (htmlOf s.content) ∧
      ∀ l ∈ s.links, (mapLookup table l).isSome := by
  induction secs generalizing secs' with
  | nil =>
      unfold renderAllSections at h
      cases h
      intro s' hs'
      cases hs'
  | cons kv rest ih =>
      unfold renderAllSections at h
      cases hr : kv.2.render_markdown table with
      | error e => rw [hr] at h; cases h
      | ok s =>
          rw [hr] at h
          cases hrest : renderAllSections table rest with
          | error e => rw [hrest] at h; cases h
          | ok rest' =>
              rw [hrest] at h
              cases h
              intro s' hs'
              rcases List.mem_cons.mp hs' with h0 | h0
              · obtain ⟨hs, hlinks⟩ := section_render_markdown_ok hr
                refine ⟨kv.2, ?_, by rw [h0, hs], hlinks⟩
                exact List.mem_cons_self _ _
              · obtain ⟨s0, hs0, hshape, hlinks⟩ := ih hrest s' h0
                exact ⟨s0, List.mem_cons_of_mem _ hs0, hshape, hlinks⟩

/-! Value-wise shape preservation through `populate_sections`. -/

theorem pushOnePage_values_shape (secs : Smap Path Section) (p : Page) :
    ∀ s' ∈ mapValues (pushOnePage secs p), ∃ s ∈ mapValues secs,
      SecShape s' = SecShape s := by
  unfold pushOnePage
  cases hl : mapLookup secs (p.parent_path ++ [indexFileName]) with
  | none =>
      simp only [hl]
      intro s' hs'
      exact ⟨s', hs', rfl⟩
  | some s =>
      simp only [hl]
      intro s' hs'
      rcases mem_values_insert hs' with h0 | h0
      · exact ⟨s, mem_values_of_mapLookup hl, by rw [h0, secShape_withPages]⟩
      · exact ⟨s', h0, rfl⟩

theorem pushPages_values_shape (ps : List Page) (secs : Smap Path Section) :
    ∀ s' ∈ mapValues (pushPagesIntoSections ps secs), ∃ s ∈ mapValues secs,
      SecShape s' = SecShape s := by
  induction ps generalizing secs with
  | nil => exact fun s' hs' => ⟨s', hs', rfl⟩
  | cons p rest ih =>
      intro s' hs'
      obtain ⟨s1, hs1, hsh1⟩ :=
        ih (pushOnePage secs p) s' (by exact hs')
      obtain ⟨s0, hs0, hsh0⟩ := pushOnePage_values_shape secs p s1 hs1
      exact ⟨s0, hs0, hsh1.trans hsh0⟩

theorem populate_sections_values_shape (site : Site) :
    ∀ s' ∈ mapValues (site.populate_sections).sections, ∃ s ∈ mapValues site.sections,
      SecShape s' = SecShape s := by
  intro s' hs'
  have h1 : s' ∈ (mapValues (pushPagesIntoSections (mapValues site.pages) site.sections)).map
      (deriveSection (grandparentMap (mapValues (pushPagesIntoSections (mapValues site.pages) site.sections)))) := by
    rw [← mapValues_mapPair]
    exact hs'
  obtain ⟨s1, hs1, hder⟩ := List.mem_map.mp h1
  obtain ⟨s0, hs0, hsh⟩ := pushPages_values_shape (mapValues site.pages) site.sections s1 hs1
  refine ⟨s0, hs0, ?_⟩
  rw [← hder, secShape_deriveSection, hsh]

/-! Inversion lemmas for the add and load operations. -/

theorem add_page_ok {site site' : Site} {path : Path} {fd : FileRead}
    (h : site.add_page path fd = .ok site') :
    ∃ doc, fd = some (some doc) ∧
      site' = { site with
                pages := mapInsert site.pages path (pageOfDoc site.config path doc) } := by
  match fd with
  | none => exact absurd h (by simp [Site.add_page, Page.from_file])
  | some none => exact absurd h (by simp [Site.add_page, Page.from_file])
  | some (some doc) =>
      refine ⟨doc, rfl, ?_⟩
      simp only [Site.add_page, Page.from_file] at h
      cases h
      rfl

theorem add_section_ok {site site' : Site} {path : Path} {fd : FileRead}
    (h : site.add_section path fd = .ok site') :
    ∃ doc, fd = some (some doc) ∧
      site' = { site with
                sections := mapInsert site.sections path (sectionOfDoc site.config path doc) } := by
  match fd with
  | none => exact absurd h (by simp [Site.add_section, Section.from_file])
  | some none => exact absurd h (by simp [Site.add_section, Section.from_file])
  | some (some doc) =>
      refine ⟨doc, rfl, ?_⟩
      simp only [Site.add_section, Section.from_file] at h
      cases h
      rfl

theorem loadContent_cons {site site' : Site} {e : Path × Option Doc} {rest : FS}
    (h : site.loadContent (e :: rest) = .ok site') :
    ∃ site1,
      (if isIndexPath e.1 then site.add_section e.1 (some e.2)
       else site.add_page e.1 (some e.2)) = .ok site1 ∧
      site1.loadContent rest = .ok site' := by
  unfold Site.loadContent at h
  cases hstep : (if isIndexPath e.1 then site.add_section e.1 (some e.2)
                 else site.add_page e.1 (some e.2)) with
  | error err => rw [hstep] at h; cases h
  | ok site1 =>
      rw [hstep] at h
      exact ⟨site1, rfl, h⟩

theorem loadContent_config {site site' : Site} {fs : FS}
    (h : site.loadContent fs = .ok site') : site'.config = site.config := by
  induction fs generalizing site with
  | nil =>
      unfold Site.loadContent at h
      cases h
      rfl
  | cons e rest ih =>
      obtain ⟨site1, hstep, hrest⟩ := loadContent_cons h
      have h1 : site1.config = site.config := by
        by_cases hidx : isIndexPath e.1
        · rw [if_pos hidx] at hstep
          obtain ⟨doc, -, hsite⟩ := add_section_ok hstep
          rw [hsite]
        · rw [if_neg hidx] at hstep
          obtain ⟨doc, -, hsite⟩ := add_page_ok hstep
          rw [hsite]
      rw [ih hrest, h1]

theorem loadContent_lookup_of_not_mem {site site' : Site} {fs : FS}
    (h : site.loadContent fs = .ok site') (k : Path)
    (hk : ∀ e ∈ fs, e.1 ≠ k) :
    mapLookup site'.sections k = mapLookup site.sections k := by
  induction fs generalizing site with
  | nil =>
      unfold Site.loadContent at h
      cases h
      rfl
  | cons e rest ih =>
      obtain ⟨site1, hstep, hrest⟩ := loadContent_cons h
      have h1 : mapLookup site1.sections k = mapLookup site.sections k := by
        by_cases hidx : isIndexPath e.1
        · rw [if_pos hidx] at hstep
          obtain ⟨doc, -, hsite⟩ := add_section_ok hstep
          rw [hsite]
          exact mapLookup_insert_ne _ _ _ _ (fun hh => hk e (List.mem_cons_self _ _) (hh ▸ rfl))
        · rw [if_neg hidx] at hstep
          obtain ⟨doc, -, hsite⟩ := add_page_ok hstep
          rw [hsite]
      rw [ih hrest (fun e' he' => hk e' (List.mem_cons_of_mem _ he')), h1]

theorem loadContent_lookup_of_mem {site site' : Site} {fs : FS} {k : Path}
    {d : Option Doc} (h : site.loadContent fs = .ok site')
    (hidx : isIndexPath k = true) (hnd : (fs.map Prod.fst).Nodup)
    (hm : (k, d) ∈ fs) :
    ∃ doc, d = some doc ∧
      mapLookup site'.sections k = some (sectionOfDoc site.config k doc) := by
  induction fs generalizing site with
  | nil => cases hm
  | cons e rest ih =>
      obtain ⟨site1, hstep, hrest⟩ := loadContent_cons h
      rcases List.mem_cons.mp hm with he | he
      · subst he
        rw [if_pos hidx] at hstep
        obtain ⟨doc, hd, hsite⟩ := add_section_ok hstep
        have hd' : d = some doc := by
          cases hd
          rfl
        refine ⟨doc, hd', ?_⟩
        have hnotin : ∀ e' ∈ rest, e'.1 ≠ k := by
          intro e' he' heq
          have hmem : e'.1 ∈ rest.map Prod.fst := List.mem_map_of_mem Prod.fst he'
          rw [heq] at hmem
          exact (List.nodup_cons.mp hnd).1 hmem
        rw [loadContent_lookup_of_not_mem hrest k hnotin, hsite]
        exact mapLookup_insert_self _ _ _
      · have hcfg : site1.config = site.config := by
          by_cases hi : isIndexPath e.1
          · rw [if_pos hi] at hstep
            obtain ⟨doc, -, hsite⟩ := add_section_ok hstep
            rw [hsite]
          · rw [if_neg hi] at hstep
            obtain ⟨doc, -, hsite⟩ := add_page_ok hstep
            rw [hsite]
        obtain ⟨doc, hd, hlook⟩ := ih hrest (List.nodup_cons.mp hnd).2 he
        exact ⟨doc, hd, by rw [hlook, hcfg]⟩

theorem loadDiscovery_ok_parts {cfg : Config} {fs : FS} {site2 : Site}
    (h : Site.loadDiscovery cfg fs = .ok site2) :
    ∃ site1, (Site.new cfg).loadContent fs = .ok site1 ∧
      site2 = (if (mapLookup site1.sections rootIndexPath).isSome then site1
               else { site1 with
                      sections := mapInsert site1.sections rootIndexPath
                        (defaultRootSection cfg) }) := by
  unfold Site.loadDiscovery at h
  cases hc : (Site.new cfg).loadContent fs with
  | error e => rw [hc] at h; cases h
  | ok site1 =>
      rw [hc] at h
      cases h
      exact ⟨site1, rfl, rfl⟩

theorem load_ok_parts {cfg : Config} {fs : FS} {site : Site}
    (h : Site.load cfg fs = .ok site) :
    ∃ site2 pages1 secs1,
      Site.loadDiscovery cfg fs = .ok site2 ∧
      renderAllPages (buildPermalinkTable site2.pages site2.sections) site2.pages
        = .ok pages1 ∧
      renderAllSections (buildPermalinkTable site2.pages site2.sections) site2.sections
        = .ok secs1 ∧
      site = ((({ site2 with
                  pages := pages1
                  sections := secs1
                  permalinks := buildPermalinkTable site2.pages site2.sections
                } : Site).populate_sections).populate_tags_and_categories) := by
  unfold Site.load at h
  cases hd : Site.loadDiscovery cfg fs with
  | error e => rw [hd] at h; cases h
  | ok site2 =>
      rw [hd] at h
      simp only [] at h
      cases hp : renderAllPages (buildPermalinkTable site2.pages site2.sections) site2.pages with
      | error e => rw [hp] at h; cases h
      | ok pages1 =>
          rw [hp] at h
          cases hs : renderAllSections (buildPermalinkTable site2.pages site2.sections) site2.sections with
          | error e => rw [hs] at h; cases h
          | ok secs1 =>
              rw [hs] at h
              cases h
              exact ⟨site2, pages1, secs1, rfl, hp, hs, rfl⟩

/-- The page record `add_page_and_render` ends up storing: freshly parsed,
body rendered. -/
def renderedPageOf (cfg : Config) (path : Path) (doc : Doc) : Page :=
  { pageOfDoc cfg path doc with content := htmlOf doc.body }

/-- The section record `add_section_and_render` ends up storing: freshly
parsed, body rendered, child lists empty. -/
def renderedSectionOf (cfg : Config) (path : Path) (doc : Doc) : Section :=
  (sectionOfDoc cfg path doc).withContent (htmlOf doc.body)

theorem add_page_and_render_ok {site site1 : Site} {fs : FS} {path : Path}
    {chg : Bool} {page : Page}
    (h : site.add_page_and_render fs path = .ok (chg, page, site1)) :
    ∃ doc, mapLookup fs path = some (some doc) ∧
      page = renderedPageOf site.config path doc ∧
      site1 = { site with
                pages := mapInsert site.pages path page
                permalinks := mapInsert site.permalinks page.relative_path page.permalink } ∧
      chg = (match mapLookup site.pages path with
             | some prev => decide (¬ prev.meta = page.meta)
             | none => true) := by
  unfold Site.add_page_and_render at h
  cases hfd : mapLookup fs path with
  | none =>
      rw [hfd] at h
      exact absurd h (by simp [Page.from_file])
  | some od =>
      cases od with
      | none =>
          rw [hfd] at h
          exact absurd h (by simp [Page.from_file])
      | some doc =>
          rw [hfd] at h
          simp only [Page.from_file] at h
          cases hr : (pageOfDoc site.config path doc).render_markdown
              (mapInsert site.permalinks (pageOfDoc site.config path doc).relative_path
                (pageOfDoc site.config path doc).permalink) with
          | error e => rw [hr] at h; cases h
          | ok page2 =>
              rw [hr] at h
              obtain ⟨hp2, -⟩ := page_render_markdown_ok hr
              refine ⟨doc, rfl, ?_⟩
              cases hex : mapLookup site.pages path with
              | some prev =>
                  rw [hex] at h
                  cases h
                  refine ⟨by rw [hp2]; rfl, ?_, rfl⟩
                  rw [hp2]
                  rfl
              | none =>
                  rw [hex] at h
                  cases h
                  refine ⟨by rw [hp2]; rfl, ?_, rfl⟩
                  rw [hp2]
                  rfl

theorem add_section_and_render_ok {site site1 : Site} {fs : FS} {path : Path}
    (h : site.add_section_and_render fs path = .ok site1) :
    ∃ doc, mapLookup fs path = some (some doc) ∧
      site1 = { site with
                sections := mapInsert site.sections path
                  (renderedSectionOf site.config path doc)
                permalinks := mapInsert site.permalinks (relOf path)
                  (site.config.make_permalink (sectionLogicalPath (relOf path))) } := by
  unfold Site.add_section_and_render at h
  cases hfd : mapLookup fs path with
  | none =>
      rw [hfd] at h
      exact absurd h (by simp [Section.from_file])
  | some od =>
      cases od with
      | none =>
          rw [hfd] at h
          exact absurd h (by simp [Section.from_file])
      | some doc =>
          rw [hfd] at h
          simp only [Section.from_file] at h
          cases hr : (sectionOfDoc site.config path doc).render_markdown
              (mapInsert site.permalinks (sectionOfDoc site.config path doc).relative_path
                (sectionOfDoc site.config path doc).permalink) with
          | error e => rw [hr] at h; cases h
          | ok sec2 =>
              rw [hr] at h
              obtain ⟨hs2, -⟩ := section_render_markdown_ok hr
              cases h
              exact ⟨doc, rfl, by rw [hs2]; rfl⟩

/-! Order and stability of the item sort of `render_categories_and_tags`. -/

/-- Descending-count order on list items. -/
def countGE (a b : ListItem) : Prop := b.count ≤ a.count

/-- The comparator of the item sort: `b.count.cmp(&a.count)` reports Less
exactly when `b.count < a.count`, i.e. the earlier element strictly
precedes. -/
def countPre (a b : ListItem) : Bool := decide (b.count < a.count)

theorem mem_insBefore {α : Type} (pre : α → α → Bool) (x z : α) (l : List α) :
    z ∈ insBefore pre x l ↔ z = x ∨ z ∈ l := by
  induction l with
  | nil => simp [insBefore]
  | cons y ys ih =>
      by_cases h : pre y x
      · rw [insBefore, if_pos h]
        simp only [List.mem_cons, ih]
        tauto
      · rw [insBefore, if_neg h]
        simp only [List.mem_cons]

theorem insBefore_pairwise_countGE (x : ListItem) (l : List ListItem)
    (h : l.Pairwise countGE) : (insBefore countPre x l).Pairwise countGE := by
  induction l with
  | nil => simp [insBefore, List.pairwise_cons]
  | cons y ys ih =>
      rcases List.pairwise_cons.mp h with ⟨hy, hys⟩
      by_cases hp : countPre y x
      · rw [insBefore, if_pos hp]
        refine List.pairwise_cons.mpr ⟨?_, ih hys⟩
        intro z hz
        rcases (mem_insBefore countPre x z ys).mp hz with hz | hz
        · subst hz
          exact le_of_lt (of_decide_eq_true hp)
        · exact hy z hz
      · rw [insBefore, if_neg hp]
        have hyx : y.count ≤ x.count := by
          have := of_decide_eq_false (eq_false_of_ne_true hp)
          exact le_of_not_lt this
        refine List.pairwise_cons.mpr ⟨?_, h⟩
        intro z hz
        rcases List.mem_cons.mp hz with hz | hz
        · subst hz
          exact hyx
        · exact le_trans (hy z hz) hyx

theorem stableSortBy_pairwise_countGE (l : List ListItem) :
    (stableSortBy countPre l).Pairwise countGE := by
  induction l with
  | nil => exact List.Pairwise.nil
  | cons x xs ih => exact insBefore_pairwise_countGE x _ ih

theorem insBefore_filter_count (x : ListItem) (l : List ListItem) (c : Nat)
    (h : l.Pairwise countGE) :
    (insBefore countPre x l).filter (fun a => a.count == c) =
      (if x.count = c then x :: l.filter (fun a => a.count == c)
       else l.filter (fun a => a.count == c)) := by
  induction l with
  | nil =>
      by_cases hx : x.count = c
      · simp [insBefore, List.filter_cons, hx]
      · simp [insBefore, List.filter_cons, hx]
  | cons y ys ih =>
      rcases List.pairwise_cons.mp h with ⟨hy, hys⟩
      by_cases hp : countPre y x
      · have hlt : x.count < y.count := of_decide_eq_true hp
        rw [insBefore, if_pos hp]
        by_cases hx : x.count = c
        · have hyne : ¬ y.count = c := by
            subst hx
            exact Nat.ne_of_gt hlt
          simp only [List.filter_cons, ih hys, if_pos hx]
          simp [hx, hyne]
        · simp only [List.filter_cons, ih hys, if_neg hx]
      · rw [insBefore, if_neg hp]
        by_cases hx : x.count = c
        · simp only [List.filter_cons, if_pos hx]
          simp [hx]
        · simp only [List.filter_cons, if_neg hx]
          simp [hx]

theorem stableSortBy_filter_count (l : List ListItem) (c : Nat) :
    (stableSortBy countPre l).filter (fun a => a.count == c) =
      l.filter (fun a => a.count == c) := by
  induction l with
  | nil => rfl
  | cons x xs ih =>
      show (insBefore countPre x (stableSortBy countPre xs)).filter _ = _
      rw [insBefore_filter_count x _ c (stableSortBy_pairwise_countGE xs)]
      by_cases hx : x.count = c
      · simp [List.filter_cons, hx, ih]
      · simp [List.filter_cons, hx, ih]

/-- Projection helpers out of a `SecShape` equality. -/
theorem secShape_eq_relative_path {s t : Section} (h : SecShape s = SecShape t) :
    s.relative_path = t.relative_path := congrArg (fun q => q.2.1) h

theorem secShape_eq_permalink {s t : Section} (h : SecShape s = SecShape t) :
    s.permalink = t.permalink := congrArg (fun q => q.2.2.1) h

theorem secShape_eq_meta {s t : Section} (h : SecShape s = SecShape t) :
    s.meta = t.meta := congrArg (fun q => q.2.2.2.1) h

theorem secShape_eq_links {s t : Section} (h : SecShape s = SecShape t) :
    s.links = t.links := congrArg (fun q => q.2.2.2.2) h

/-! The claims. -/

/-- C1: the claim states that the tag and category indexes always equal the
indexes derived from scratch from the current page collection, and in
particular that deleting the only page tagged "x" removes the key "x" from
the tag index on the next rebuild.  The code violates this: evaluating the
incremental deletion of the only page (tagged "x") of a loaded site shows
the deletion branch completes, the page collection becomes empty, and yet
the tag index still maps "x" to the deleted page's path, because
`populate_tags_and_categories` never clears the maps it rebuilds into. -/
theorem tag_index_stale_after_delete :
    siteTagged.rebuild_after_content_change fsTaggedDeleted pathA =
      Outcome.ok (siteAfterDelete, siteAfterDelete.build_actions) ∧
    mapValues siteAfterDelete.pages = [] ∧
    mapLookup siteAfterDelete.tags "x" = some [pathA] :=
  ⟨rfl, rfl, rfl⟩

/-- C2: the claim states that a section's child-page and child-subsection
lists are recomputed from scratch by `populate_sections`, so each direct
child occurs exactly once even when `populate_sections` runs more than once
on the same `Site`.  The code violates this: on a loaded site (one
invocation, counts 1) a second invocation pushes every child page and
extends every subsection list again without clearing, so both counts become
2. -/
theorem section_children_duplicated_on_repopulate :
    childPageCount siteBlog pathBlogIdx pathBlogA = 1 ∧
    subsectionCount siteBlog pathBlogIdx pathBlogSubIdx = 1 ∧
    childPageCount siteBlogTwice pathBlogIdx pathBlogA = 2 ∧
    subsectionCount siteBlogTwice pathBlogIdx pathBlogSubIdx = 2 :=
  ⟨rfl, rfl, rfl, rfl⟩

/-- Two tag buckets of equal size whose map iteration order is not the
lexical order of their names. -/
def itemsTie : Smap String (List Path) := [("b", [["p1"]]), ("a", [["p2"]])]

/-- C6 counterexample: the item sort of `render_categories_and_tags` does
not order equal-count items by name — on two equal-count buckets iterated
as b, a it keeps b first, while the spec's tie-breaking sort puts a
first. -/
theorem list_items_tie_not_lexical :
    sorted_list_items itemsTie ≠ spec_sorted_list_items itemsTie := by
  intro h
  have h1 : (sorted_list_items itemsTie).map ListItem.name = ["b", "a"] := rfl
  have h2 : (spec_sorted_list_items itemsTie).map ListItem.name = ["a", "b"] := rfl
  rw [h, h2] at h1
  exact absurd (List.cons.inj h1).1 (by decide)

/-- C6 (amended): the item list is stably sorted by descending bucket size
only: the output is pairwise descending in count, and within each equal
count the items keep the bucket map's iteration order (so ties follow
iteration order, not the item name's lexical order, and the sequence is
deterministic only for a fixed iteration order of the buckets). -/
theorem list_items_sorted_desc_stable (items : Smap String (List Path)) :
    (sorted_list_items items).Pairwise (fun a b => b.count ≤ a.count) ∧
    ∀ c : Nat, (sorted_list_items items).filter (fun a => a.count == c) =
      (items.map (fun kv => ListItem.new kv.1 kv.2.length)).filter
        (fun a => a.count == c) :=
  ⟨stableSortBy_pairwise_countGE _, fun c => stableSortBy_filter_count _ c⟩

/-- C10: the RSS selection contains only dated pages and at most 15 of
them, and a site in which no page has a date produces no rss.xml artifact
(the feed renderer returns successfully without writing). -/
theorem rss_selection_dated_and_bounded (site : Site) :
    (∀ p ∈ site.rss_pages, p.meta.date.isSome) ∧
    site.rss_pages.length ≤ 15 ∧
    ((∀ p ∈ mapValues site.pages, p.meta.date = none) →
       site.render_rss_feed_actions = []) := by
  refine ⟨?_, ?_, ?_⟩
  · intro p hp
    have hp' : p ∈ (mapValues site.pages).filter (fun q => q.meta.date.isSome) :=
      List.take_subset _ _ hp
    exact (List.mem_filter.mp hp').2
  · unfold Site.rss_pages
    rw [List.length_take]
    exact min_le_left _ _
  · intro hall
    have hnil : site.rss_pages = [] := by
      unfold Site.rss_pages
      rw [List.filter_eq_nil_iff.mpr (fun p hp => by rw [hall p hp]; simp)]
      rfl
    unfold Site.render_rss_feed_actions
    rw [hnil]
    rfl

/-- A site with a single undated page, for the RSS witness. -/
def siteUndated : Site :=
  match Site.load cfg0 [(pathA, some (docOfPageMeta PageMeta.blank "b"))] with
  | .ok s => s
  | .error _ => Site.new cfg0

/-- Witness for C10 at a concrete site with no dated page. -/
theorem rss_selection_dated_and_bounded_witness :
    siteUndated.render_rss_feed_actions = [] :=
  (rss_selection_dated_and_bounded siteUndated).2.2 (by decide)

/-- C9: in the deletion branch (the changed path no longer exists on disk),
the update is free of the reachable indexing crash exactly when the path is
currently tracked: a key of the section collection for an index file, a key
of the page collection otherwise. -/
theorem delete_requires_tracked_path (site : Site) (fs : FS) (path : Path)
    (hmiss : mapLookup fs path = none) :
    (site.rebuild_after_content_change fs path ≠ Outcome.crashed) ↔
      ((if isIndexPath path then (mapLookup site.sections path).isSome
        else (mapLookup site.pages path).isSome) = true) := by
  unfold Site.rebuild_after_content_change
  rw [hmiss]
  simp only [Option.isSome_none, Bool.false_eq_true, if_false]
  by_cases hidx : isIndexPath path
  · rw [if_pos hidx, if_pos hidx]
    cases hsec : mapLookup site.sections path with
    | none => simp [hsec]
    | some s => simp [hsec]
  · rw [if_neg hidx, if_neg hidx]
    cases hpg : mapLookup site.pages path with
    | none => simp [hpg]
    | some p => simp [hpg]

/-- Witness for C9: deleting the tracked page of the loaded example does
not crash. -/
theorem delete_requires_tracked_path_witness :
    siteTagged.rebuild_after_content_change fsTaggedDeleted pathA ≠
      Outcome.crashed :=
  (delete_requires_tracked_path siteTagged fsTaggedDeleted pathA rfl).mpr
    (by decide)

/-- C3: an incremental update of an existing page file that still exists on
disk re-parses the page and compares its front matter with the previous
in-memory record; when the front matter is unchanged the controller emits
only that one page's output, leaving the section graph and both indexes
untouched, and when it changed the controller re-derives the section graph
and the tag/category indexes and performs a full build. -/
theorem page_update_cheap_or_full (site : Site) (fs : FS) (path : Path)
    (prev page : Page) (chg : Bool) (site1 : Site)
    (hsec : isIndexPath path = false)
    (hprev : mapLookup site.pages path = some prev)
    (hadd : site.add_page_and_render fs path = .ok (chg, page, site1)) :
    (site1.sections = site.sections ∧ site1.tags = site.tags ∧
      site1.categories = site.categories) ∧
    (prev.meta = page.meta →
      site.rebuild_after_content_change fs path =
        Outcome.ok (site1, [Action.renderPage page.file_path])) ∧
    (¬ prev.meta = page.meta →
      site.rebuild_after_content_change fs path =
        Outcome.ok ((site1.populate_sections).populate_tags_and_categories,
          ((site1.populate_sections).populate_tags_and_categories).build_actions)) := by
  obtain ⟨doc, hfd, hpage, hsite1, hchg⟩ := add_page_and_render_ok hadd
  rw [hprev] at hchg
  have hfile : (mapLookup fs path).isSome = true := by rw [hfd]; rfl
  refine ⟨⟨by rw [hsite1], by rw [hsite1], by rw [hsite1]⟩, ?_, ?_⟩
  · intro heq
    unfold Site.rebuild_after_content_change
    rw [if_pos hfile, if_neg (by rw [hsec]; exact Bool.false_ne_true), hadd]
    simp only [] at hchg ⊢
    rw [hchg]
    simp [heq]
  · intro hne
    unfold Site.rebuild_after_content_change
    rw [if_pos hfile, if_neg (by rw [hsec]; exact Bool.false_ne_true), hadd]
    simp only [] at hchg ⊢
    rw [hchg]
    simp [hne]

/-- The page the tagged example stores for `content/a.md`. -/
def pageTaggedA : Page := renderedPageOf cfg0 pathA docA

/-- Witness for C3: re-saving `content/a.md` with identical front matter
takes the cheap path and renders only that page. -/
theorem page_update_cheap_or_full_witness :
    siteTagged.rebuild_after_content_change fsTagged pathA =
      Outcome.ok (siteTagged, [Action.renderPage pathA]) :=
  (page_update_cheap_or_full siteTagged fsTagged pathA pageTaggedA pageTaggedA
      false siteTagged rfl rfl rfl).2.1 rfl

/-- C4 counterexample: the claim says an update of an existing Section
index file re-derives the whole-tree relationships and re-renders only that
section's output.  On the concrete two-section site, updating the blog
index leaves the refreshed blog section with an empty child-page list (the
page `content/blog/a.md` is still in the page collection but no re-linking
happens), and the emitted artifacts include the other sibling section's
output, so more than "only that section" is rendered and no re-derivation
takes place. -/
theorem section_update_not_only_that_section :
    Action.renderSection pathOtherIdx ∈ sectionUpdateActions ∧
    pathOtherIdx ≠ pathBlogIdx ∧
    (mapLookup sectionUpdateSite.sections pathBlogIdx).map Section.pages = some [] ∧
    (mapLookup sectionUpdateSite.pages pathBlogA).isSome = true := by
  refine ⟨?_, by decide, rfl, rfl⟩
  show Action.renderSection pathOtherIdx ∈ sectionUpdateActions
  decide

/-- C4 (amended): an incremental update of a Section index file that still
exists on disk re-discovers that single Section from its file — resetting
its derived child-page and subsection lists to empty rather than re-linking
them — patches exactly its permalink-table entry, re-renders its body, and
then re-renders every section's output; the page collection, the
tag/category indexes, and every other section record are left untouched,
and no whole-tree re-derivation of the section graph happens. -/
theorem section_update_rerenders_all (site : Site) (fs : FS) (path : Path)
    (site1 : Site) (doc : Doc)
    (hsec : isIndexPath path = true)
    (hdoc : mapLookup fs path = some (some doc))
    (hadd : site.add_section_and_render fs path = .ok site1) :
    site.rebuild_after_content_change fs path =
      Outcome.ok (site1, site1.render_sections_actions) ∧
    site1.pages = site.pages ∧
    site1.tags = site.tags ∧
    site1.categories = site.categories ∧
    mapLookup site1.sections path = some (renderedSectionOf site.config path doc) ∧
    (renderedSectionOf site.config path doc).pages = [] ∧
    (renderedSectionOf site.config path doc).subsections = [] ∧
    (renderedSectionOf site.config path doc).ignored_pages = [] ∧
    (renderedSectionOf site.config path doc).meta = doc.section_meta ∧
    (∀ k, k ≠ path → mapLookup site1.sections k = mapLookup site.sections k) ∧
    (∀ k, k ≠ relOf path →
       mapLookup site1.permalinks k = mapLookup site.permalinks k) ∧
    mapLookup site1.permalinks (relOf path) =
      some (site.config.make_permalink (sectionLogicalPath (relOf path))) := by
  obtain ⟨doc', hfd, hsite1⟩ := add_section_and_render_ok hadd
  have hdoc' : doc' = doc := by
    rw [hfd] at hdoc
    exact Option.some.inj (Option.some.inj hdoc)
  subst hdoc'
  have hfile : (mapLookup fs path).isSome = true := by rw [hfd]; rfl
  refine ⟨?_, by rw [hsite1], by rw [hsite1], by rw [hsite1], ?_, rfl, rfl, rfl, rfl,
    ?_, ?_, ?_⟩
  · unfold Site.rebuild_after_content_change
    rw [if_pos hfile, if_pos hsec, hadd]
  · rw [hsite1]
    exact mapLookup_insert_self _ _ _
  · intro k hk
    rw [hsite1]
    exact mapLookup_insert_ne _ _ _ _ hk
  · intro k hk
    rw [hsite1]
    exact mapLookup_insert_ne _ _ _ _ hk
  · rw [hsite1]
    exact mapLookup_insert_self _ _ _

/-- The parsed blog index document of the two-section example. -/
def docBlogIdx : Doc := docOfSection "blog"

/-- Witness for the amended C4 on the two-section site. -/
theorem section_update_rerenders_all_witness :
    siteTwoSections.rebuild_after_content_change fsTwoSections pathBlogIdx =
      Outcome.ok (sectionUpdateSite, sectionUpdateSite.render_sections_actions) :=
  (section_update_rerenders_all siteTwoSections fsTwoSections pathBlogIdx
      sectionUpdateSite docBlogIdx rfl rfl rfl).1

/-- C5: every successful incremental content update touches the permalink
table in at most the one entry of the changed item — every other key maps
to exactly what it mapped to before — and at that key the entry is present
(inserted or replaced) when the file still exists, and absent (removed)
when the update was a deletion. -/
theorem incremental_permalink_frame (site : Site) (fs : FS) (path : Path)
    (site' : Site) (acts : List Action)
    (h : site.rebuild_after_content_change fs path = Outcome.ok (site', acts)) :
    ∃ k, (∀ k', k' ≠ k →
        mapLookup site'.permalinks k' = mapLookup site.permalinks k') ∧
      (if (mapLookup fs path).isSome then
         (mapLookup site'.permalinks k).isSome = true
       else mapLookup site'.permalinks k = none) := by
  unfold Site.rebuild_after_content_change at h
  by_cases hex : (mapLookup fs path).isSome = true
  · rw [if_pos hex] at h
    by_cases hidx : isIndexPath path = true
    · rw [if_pos hidx] at h
      cases hadd : site.add_section_and_render fs path with
      | error e => rw [hadd] at h; cases h
      | ok site1 =>
          rw [hadd] at h
          simp only [] at h
          cases h
          obtain ⟨doc, hfd, hsite1⟩ := add_section_and_render_ok hadd
          refine ⟨relOf path, ?_, ?_⟩
          · intro k' hk'
            rw [hsite1]
            exact mapLookup_insert_ne _ _ _ _ hk'
          · rw [if_pos hex, hsite1, mapLookup_insert_self]
            rfl
    · rw [if_neg hidx] at h
      cases hadd : site.add_page_and_render fs path with
      | error e => rw [hadd] at h; cases h
      | ok res =>
          obtain ⟨chg, page, site1⟩ := res
          rw [hadd] at h
          simp only [] at h
          obtain ⟨doc, hfd, hpage, hsite1, hchg⟩ := add_page_and_render_ok hadd
          by_cases hc : chg = true
          · rw [if_pos hc] at h
            cases h
            refine ⟨page.relative_path, ?_, ?_⟩
            · intro k' hk'
              rw [populate_tags_permalinks, populate_sections_permalinks, hsite1]
              exact mapLookup_insert_ne _ _ _ _ hk'
            · rw [if_pos hex, populate_tags_permalinks, populate_sections_permalinks,
                hsite1, mapLookup_insert_self]
              rfl
          · rw [if_neg hc] at h
            cases h
            refine ⟨page.relative_path, ?_, ?_⟩
            · intro k' hk'
              rw [hsite1]
              exact mapLookup_insert_ne _ _ _ _ hk'
            · rw [if_pos hex, hsite1, mapLookup_insert_self]
              rfl
  · rw [if_neg hex] at h
    by_cases hidx : isIndexPath path = true
    · rw [if_pos hidx] at h
      cases hsec : mapLookup site.sections path with
      | none =>
          rw [hsec] at h
          simp only [Option.map_none'] at h
          cases h
      | some s =>
          rw [hsec] at h
          simp only [Option.map_some'] at h
          cases h
          refine ⟨s.relative_path, ?_, ?_⟩
          · intro k' hk'
            rw [populate_tags_permalinks, populate_sections_permalinks, if_pos hidx]
            exact mapLookup_remove_ne _ _ _ hk'
          · rw [if_neg hex, populate_tags_permalinks, populate_sections_permalinks,
              if_pos hidx]
            exact mapLookup_remove_self _ _
    · rw [if_neg hidx] at h
      cases hpg : mapLookup site.pages path with
      | none =>
          rw [hpg] at h
          simp only [Option.map_none'] at h
          cases h
      | some p =>
          rw [hpg] at h
          simp only [Option.map_some'] at h
          cases h
          refine ⟨p.relative_path, ?_, ?_⟩
          · intro k' hk'
            rw [populate_tags_permalinks, populate_sections_permalinks, if_neg hidx]
            exact mapLookup_remove_ne _ _ _ hk'
          · rw [if_neg hex, populate_tags_permalinks, populate_sections_permalinks,
              if_neg hidx]
            exact mapLookup_remove_self _ _

/-- Witness for C5 at the concrete deletion: exactly the deleted page's
entry disappears from the table. -/
theorem incremental_permalink_frame_witness :
    ∃ k, (∀ k', k' ≠ k →
        mapLookup siteAfterDelete.permalinks k' =
          mapLookup siteTagged.permalinks k') ∧
      (if (mapLookup fsTaggedDeleted pathA).isSome then
         (mapLookup siteAfterDelete.permalinks k).isSome = true
       else mapLookup siteAfterDelete.permalinks k = none) :=
  incremental_permalink_frame siteTagged fsTaggedDeleted pathA siteAfterDelete
    siteAfterDelete.build_actions rfl

/-- C7: after a successful `load`, the section table always has an entry at
the root index path; when discovery found no file at the root index path
the entry is the synthetic root section, whose permalink is the base URL,
and when a root index file was discovered the stored entry carries that
file's front matter, so no synthetic section replaces it. -/
theorem load_synthesizes_root_section (cfg : Config) (fs : FS) (site : Site)
    (h : Site.load cfg fs = .ok site) (hnd : (fs.map Prod.fst).Nodup) :
    (mapLookup site.sections rootIndexPath).isSome = true ∧
    ((∀ e ∈ fs, e.1 ≠ rootIndexPath) →
       ∃ s, mapLookup site.sections rootIndexPath = some s ∧
         s.permalink = cfg.base_url) ∧
    (∀ d, (rootIndexPath, d) ∈ fs →
       ∃ doc s, d = some doc ∧
         mapLookup site.sections rootIndexPath = some s ∧
         s.meta = doc.section_meta) := by
  obtain ⟨site2, pages1, secs1, hd, hp, hs, hsite⟩ := load_ok_parts h
  have hchain : ∀ k, (mapLookup site.sections k).map SecShape =
      (mapLookup site2.sections k).map SecShape := by
    intro k
    rw [hsite, populate_tags_sections, populate_sections_lookup_shape]
    exact renderAllSections_lookup_shape hs k
  obtain ⟨site1, hc, hsyn⟩ := loadDiscovery_ok_parts hd
  have hroot2 : (mapLookup site2.sections rootIndexPath).isSome = true := by
    by_cases h1 : (mapLookup site1.sections rootIndexPath).isSome = true
    · rw [hsyn, if_pos h1]
      exact h1
    · rw [hsyn, if_neg h1]
      show (mapLookup (mapInsert site1.sections rootIndexPath
        (defaultRootSection cfg)) rootIndexPath).isSome = true
      rw [mapLookup_insert_self]
      rfl
  refine ⟨?_, ?_, ?_⟩
  · have hch := hchain rootIndexPath
    cases hfin : mapLookup site.sections rootIndexPath with
    | some s => rfl
    | none =>
        rw [hfin] at hch
        cases hr2 : mapLookup site2.sections rootIndexPath with
        | none => rw [hr2] at hroot2; cases hroot2
        | some s => rw [hr2] at hch; cases hch
  · intro hnone
    have h1 : mapLookup site1.sections rootIndexPath = none := by
      rw [loadContent_lookup_of_not_mem hc rootIndexPath hnone]
      rfl
    have h2 : mapLookup site2.sections rootIndexPath =
        some (defaultRootSection cfg) := by
      rw [hsyn, if_neg (by rw [h1]; exact Bool.false_ne_true)]
      exact mapLookup_insert_self _ _ _
    have hch := hchain rootIndexPath
    rw [h2] at hch
    cases hfin : mapLookup site.sections rootIndexPath with
    | none => rw [hfin] at hch; cases hch
    | some s =>
        rw [hfin] at hch
        refine ⟨s, rfl, ?_⟩
        have hsh : SecShape s = SecShape (defaultRootSection cfg) :=
          Option.some.inj hch
        rw [secShape_eq_permalink hsh]
        rfl
  · intro d hm
    obtain ⟨doc, hd0, h1⟩ := loadContent_lookup_of_mem hc (by decide) hnd hm
    have h2 : mapLookup site2.sections rootIndexPath =
        some (sectionOfDoc cfg rootIndexPath doc) := by
      rw [hsyn, if_pos (by rw [h1]; rfl)]
      exact h1
    have hch := hchain rootIndexPath
    rw [h2] at hch
    cases hfin : mapLookup site.sections rootIndexPath with
    | none => rw [hfin] at hch; cases hch
    | some s =>
        rw [hfin] at hch
        have hsh : SecShape s = SecShape (sectionOfDoc cfg rootIndexPath doc) :=
          Option.some.inj hch
        exact ⟨doc, s, hd0, rfl, by rw [secShape_eq_meta hsh]; rfl⟩

theorem renderBody_error_form {links : List Path} {body : String}
    {table : Smap Path String} {e : Err}
    (h : renderBody links body table = .error e) :
    ∃ l, e = Err.linkResolution l := by
  unfold renderBody at h
  cases hf : links.find? (fun l => (mapLookup table l).isNone) with
  | some l =>
      rw [hf] at h
      cases h
      exact ⟨l, rfl⟩
  | none => rw [hf] at h; cases h

theorem renderAllPages_error_form {table : Smap Path String}
    {pages : Smap Path Page} {e : Err}
    (h : renderAllPages table pages = .error e) :
    ∃ l, e = Err.linkResolution l := by
  induction pages with
  | nil => unfold renderAllPages at h; cases h
  | cons kv rest ih =>
      unfold renderAllPages at h
      cases hr : kv.2.render_markdown table with
      | error e2 =>
          rw [hr] at h
          cases h
          unfold Page.render_markdown at hr
          cases hb : renderBody kv.2.links kv.2.content table with
          | error e3 =>
              rw [hb] at hr
              cases hr
              exact renderBody_error_form hb
          | ok c => rw [hb] at hr; cases hr
      | ok p =>
          rw [hr] at h
          cases hrest : renderAllPages table rest with
          | error e2 =>
              rw [hrest] at h
              cases h
              exact ih hrest
          | ok rest' => rw [hrest] at h; cases h

theorem renderAllSections_error_form {table : Smap Path String}
    {secs : Smap Path Section} {e : Err}
    (h : renderAllSections table secs = .error e) :
    ∃ l, e = Err.linkResolution l := by
  induction secs with
  | nil => unfold renderAllSections at h; cases h
  | cons kv rest ih =>
      unfold renderAllSections at h
      cases hr : kv.2.render_markdown table with
      | error e2 =>
          rw [hr] at h
          cases h
          unfold Section.render_markdown at hr
          cases hb : renderBody kv.2.links kv.2.content table with
          | error e3 =>
              rw [hb] at hr
              cases hr
              exact renderBody_error_form hb
          | ok c => rw [hb] at hr; cases hr
      | ok s =>
          rw [hr] at h
          cases hrest : renderAllSections table rest with
          | error e2 =>
              rw [hrest] at h
              cases h
              exact ih hrest
          | ok rest' => rw [hrest] at h; cases h

theorem renderAllPages_ok_links {table : Smap Path String}
    {pages pages' : Smap Path Page} (h : renderAllPages table pages = .ok pages') :
    ∀ p ∈ mapValues pages, ∀ l ∈ p.links, (mapLookup table l).isSome = true := by
  induction pages generalizing pages' with
  | nil => intro p hp; cases hp
  | cons kv rest ih =>
      unfold renderAllPages at h
      cases hr : kv.2.render_markdown table with
      | error e => rw [hr] at h; cases h
      | ok p1 =>
          rw [hr] at h
          cases hrest : renderAllPages table rest with
          | error e => rw [hrest] at h; cases h
          | ok rest' =>
              intro p hp
              rcases List.mem_cons.mp hp with h0 | h0
              · subst h0
                exact (page_render_markdown_ok hr).2
              · exact ih hrest p h0

theorem renderAllSections_ok_links {table : Smap Path String}
    {secs secs' : Smap Path Section}
    (h : renderAllSections table secs = .ok secs') :
    ∀ s ∈ mapValues secs, ∀ l ∈ s.links, (mapLookup table l).isSome = true := by
  induction secs generalizing secs' with
  | nil => intro s hs; cases hs
  | cons kv rest ih =>
      unfold renderAllSections at h
      cases hr : kv.2.render_markdown table with
      | error e => rw [hr] at h; cases h
      | ok s1 =>
          rw [hr] at h
          cases hrest : renderAllSections table rest with
          | error e => rw [hrest] at h; cases h
          | ok rest' =>
              intro s hs
              rcases List.mem_cons.mp hs with h0 | h0
              · subst h0
                exact (section_render_markdown_ok hr).2
              · exact ih hrest s h0

/-- Witness for C7 on a content root with no root index file: the loaded
site still has a root section entry, and it is the synthetic one with the
base URL as permalink. -/
theorem load_synthesizes_root_section_witness :
    (mapLookup siteTagged.sections rootIndexPath).isSome = true ∧
    (∃ s, mapLookup siteTagged.sections rootIndexPath = some s ∧
      s.permalink = cfg0.base_url) :=
  ⟨(load_synthesizes_root_section cfg0 fsTagged siteTagged rfl (by decide)).1,
   (load_synthesizes_root_section cfg0 fsTagged siteTagged rfl (by decide)).2.1
     (by decide)⟩

/-- C8: during `load` the permalink table is built over all discovered
pages and sections before any body is rendered.  Consequently, on success
the final table (the one every render received) has an entry for every
stored page and section and every body cross-reference of every stored item
resolves in it; and whenever some discovered item's body holds a
cross-reference absent from the freshly built table, `load` fails with a
link-resolution error instead of ignoring it. -/
theorem load_table_complete_before_render (cfg : Config) (fs : FS)
    (site2 : Site) (hd : Site.loadDiscovery cfg fs = .ok site2) :
    (∀ site, Site.load cfg fs = .ok site →
       (∀ p ∈ mapValues site.pages,
          (mapLookup site.permalinks p.relative_path).isSome = true ∧
          ∀ l ∈ p.links, (mapLookup site.permalinks l).isSome = true) ∧
       (∀ s ∈ mapValues site.sections,
          (mapLookup site.permalinks s.relative_path).isSome = true ∧
          ∀ l ∈ s.links, (mapLookup site.permalinks l).isSome = true)) ∧
    (((∃ p ∈ mapValues site2.pages, ∃ l ∈ p.links,
         mapLookup (buildPermalinkTable site2.pages site2.sections) l = none) ∨
      (∃ s ∈ mapValues site2.sections, ∃ l ∈ s.links,
         mapLookup (buildPermalinkTable site2.pages site2.sections) l = none)) →
      ∃ l, Site.load cfg fs = .error (Err.linkResolution l)) := by
  constructor
  · intro site h
    obtain ⟨site2', pages1, secs1, hd', hp, hs, hsite⟩ := load_ok_parts h
    have hsame : site2 = site2' := by
      rw [hd] at hd'
      exact Except.ok.inj hd'
    subst hsame
    have hperm : site.permalinks = buildPermalinkTable site2.pages site2.sections := by
      rw [hsite]
      rfl
    constructor
    · intro p hp0
      have hmem : p ∈ mapValues pages1 := by
        rw [hsite] at hp0
        exact hp0
      obtain ⟨p0, hp0mem, hpe, hlinks⟩ := renderAllPages_values hp p hmem
      have hrel : p.relative_path = p0.relative_path := by rw [hpe]
      have hlk : p.links = p0.links := by rw [hpe]
      constructor
      · rw [hperm, hrel]
        exact buildPermalinkTable_hasPage _ _ hp0mem
      · intro l hl
        rw [hperm]
        exact hlinks l (by rw [← hlk]; exact hl)
    · intro s hs0
      rw [hsite, populate_tags_sections] at hs0
      obtain ⟨s1, hs1, hsh1⟩ := populate_sections_values_shape _ s hs0
      obtain ⟨s0, hs0mem, hs1eq, hlinks⟩ := renderAllSections_values hs s1 hs1
      have hshape0 : SecShape s1 = SecShape s0 := by
        rw [hs1eq]
        exact secShape_withContent s0 _
      have hrel : s.relative_path = s0.relative_path :=
        (secShape_eq_relative_path hsh1).trans (secShape_eq_relative_path hshape0)
      have hlk : s.links = s0.links :=
        (secShape_eq_links hsh1).trans (secShape_eq_links hshape0)
      constructor
      · rw [hperm, hrel]
        exact buildPermalinkTable_hasSection _ _ hs0mem
      · intro l hl
        rw [hperm]
        exact hlinks l (by rw [← hlk]; exact hl)
  · intro hdangle
    unfold Site.load
    rw [hd]
    simp only []
    cases hp : (renderAllPages (buildPermalinkTable site2.pages site2.sections) site2.pages) with
    | error e =>
        obtain ⟨l, hl⟩ := renderAllPages_error_form hp
        exact ⟨l, by rw [hl]⟩
    | ok pages1 =>
        cases hs : (renderAllSections (buildPermalinkTable site2.pages site2.sections) site2.sections) with
        | error e =>
            obtain ⟨l, hl⟩ := renderAllSections_error_form hs
            exact ⟨l, by rw [hl]⟩
        | ok secs1 =>
            exfalso
            rcases hdangle with ⟨p, hpmem, l, hlmem, hnone⟩ | ⟨s, hsmem, l, hlmem, hnone⟩
            · have := renderAllPages_ok_links hp p hpmem l hlmem
              rw [hnone] at this
              cases this
            · have := renderAllSections_ok_links hs s hsmem l hlmem
              rw [hnone] at this
              cases this

/-- The discovery result of the tagged example, for the C8 witness. -/
def discTagged : Site :=
  match Site.loadDiscovery cfg0 fsTagged with
  | .ok s => s
  | .error _ => Site.new cfg0

/-- Witness for C8: on the loaded example site, the page's permalink entry
is present in the table every render received. -/
theorem load_table_complete_before_render_witness :
    (mapLookup siteTagged.permalinks pageTaggedA.relative_path).isSome = true :=
  (((load_table_complete_before_render cfg0 fsTagged discTagged rfl).1
      siteTagged rfl).1 pageTaggedA
    (show pageTaggedA ∈ mapValues siteTagged.pages from List.mem_cons_self _ _)).1

end Gutenberg
